import Mathlib

/-!
Verification of the rspec BDD test runner (src/src/runner/mod.rs and the tree
model it consumes) against its natural-language specification.

The embedding is a shallow, pure translation of the Rust source:
closures mutating the environment in place become functions from the
environment type to itself, the environment type parameter T stands for the
Rust type parameter, and cloning an environment value becomes plain value
passing (Rust Clone on an owned value produces an independent duplicate).
Every visiting function additionally returns a trace of events: hook
invocations (instrumented with a name carried by each hook so that
once-per-child properties can be stated) and observer notifications
(observers are identified by their registration index; the observer list
itself is external state, so the trace records which observer was notified
of which node event and in which order).

Under the parallel policy the source hands sibling blocks to a rayon
fork-join pool whose ordered collect reassembles the results in declaration
order; its pure denotation is therefore the same ordered map as the serial
policy, and the trace is the serial linearization of the notification
events (inter-sibling interleaving is not modelled, per-branch order is).
-/

namespace Rspec

/-- Modelled from the spec, section 3 (the header value objects live in a
module of the repository that is not part of the analysed sources): display
metadata for a suite, a kind tag plus a name string. -/
structure SuiteHeader where
  label : String
  name : String
deriving DecidableEq, Repr

/-- Modelled from the spec, section 3: display metadata for a context. -/
structure ContextHeader where
  label : String
  name : String
deriving DecidableEq, Repr

/-- Modelled from the spec, section 3: display metadata for an example. -/
structure ExampleHeader where
  label : String
  name : String
deriving DecidableEq, Repr

/-- Embeds report::ExampleReport (the report module is not part of the
analysed sources; variants from the spec, section 3, and from the fixtures
in src/src/block/example.rs): Success, Ignored, or Failure carrying an
optional diagnostic. -/
inductive ExampleReport : Type where
  | Success : ExampleReport
  | Ignored : ExampleReport
  | Failure : Option String → ExampleReport
deriving DecidableEq, Repr

mutual
/-- Modelled from the spec, section 3: a BlockReport is either an Example
report (header plus ExampleReport) or a Context report (header plus
ContextReport). The header of a context block is optional exactly as in the
tree model. -/
inductive BlockReport : Type where
  | Example : ExampleHeader → ExampleReport → BlockReport
  | Context : Option ContextHeader → ContextReport → BlockReport

/-- Modelled from the spec, section 3: a ContextReport is the ordered
sequence of the BlockReports of the children of the context. -/
inductive ContextReport : Type where
  | mk : List BlockReport → ContextReport
end

/-- Modelled from the spec, section 3: the SuiteReport wraps the suite
header and the ContextReport of the root context. -/
structure SuiteReport where
  header : SuiteHeader
  context : ContextReport

/-- Children of a context report. -/
def ContextReport.blockReports : ContextReport → List BlockReport
  | .mk bs => bs

/-- Modelled from the spec, section 4.5: an ExampleReport is failing iff it
is a Failure; Ignored and Success never cause failure. The report module
holding is_failure is not part of the analysed sources. -/
def ExampleReport.is_failure : ExampleReport → Bool
  | .Failure _ => true
  | _ => false

mutual
/-- Modelled from the spec, section 4.5: a block report is failing iff its
example report is failing, or its context report is failing. -/
def BlockReport.is_failure : BlockReport → Bool
  | .Example _ r => r.is_failure
  | .Context _ cr => cr.is_failure

/-- Modelled from the spec, section 4.5: a ContextReport is failing iff it
contains at least one failing BlockReport. -/
def ContextReport.is_failure : ContextReport → Bool
  | .mk bs => BlockReport.any_failure bs

/-- Helper for ContextReport.is_failure: whether some report of the list is
failing (the explicit recursion stands for the any combinator). -/
def BlockReport.any_failure : List BlockReport → Bool
  | [] => false
  | b :: rest => b.is_failure || BlockReport.any_failure rest
end

/-- Modelled from the spec, section 4.5: a SuiteReport is failing iff the
ContextReport it wraps is failing. -/
def SuiteReport.is_failure (s : SuiteReport) : Bool :=
  s.context.is_failure

mutual
/-- All leaf ExampleReports of a block report, in declaration order. This
is the spec-side reading of the failure predicate of section 4.5: at least
one ExampleReport Failure anywhere in the tree. -/
def BlockReport.exampleReports : BlockReport → List ExampleReport
  | .Example _ r => [r]
  | .Context _ cr => cr.exampleReports

/-- All leaf ExampleReports of a context report, in declaration order. -/
def ContextReport.exampleReports : ContextReport → List ExampleReport
  | .mk bs => BlockReport.exampleReportsList bs

/-- All leaf ExampleReports of a list of block reports. -/
def BlockReport.exampleReportsList : List BlockReport → List ExampleReport
  | [] => []
  | b :: rest => b.exampleReports ++ BlockReport.exampleReportsList rest
end

/-- A lifecycle hook of a context. In the source a hook is a boxed closure
mutating the environment in place; here it is a function on the environment
value, instrumented with a name so that properties counting hook
invocations can be stated about the evaluation trace. -/
structure Hook (T : Type) : Type where
  name : String
  run : T → T

/-- Embeds src/src/block/example.rs: a leaf example is a header plus a test
function mapping the environment to an ExampleReport (assertion evaluation
and failure capture already happened upstream of this function). -/
structure Example (T : Type) : Type where
  header : ExampleHeader
  function : T → ExampleReport

mutual
/-- Embeds block::Block as used by src/src/runner/mod.rs: a tagged variant
over examples and nested contexts. -/
inductive Block (T : Type) : Type where
  | Example : Example T → Block T
  | Context : Context T → Block T

/-- Embeds block::Context as used by src/src/runner/mod.rs (the block
module is not part of the analysed sources; fields are those read by the
runner, per the spec, section 3): an optional header, the ordered children
blocks, and the four ordered hook lists. -/
inductive Context (T : Type) : Type where
  | mk : Option ContextHeader → List (Block T) →
      List (Hook T) → List (Hook T) → List (Hook T) → List (Hook T) →
      Context T
end

/-- Optional header of a context (the root context has none). -/
def Context.header {T : Type} : Context T → Option ContextHeader
  | .mk h _ _ _ _ _ => h

/-- Ordered children blocks of a context; declaration order is significant. -/
def Context.blocks {T : Type} : Context T → List (Block T)
  | .mk _ bs _ _ _ _ => bs

/-- Ordered before_all hooks of a context. -/
def Context.before_all {T : Type} : Context T → List (Hook T)
  | .mk _ _ ba _ _ _ => ba

/-- Ordered after_all hooks of a context. -/
def Context.after_all {T : Type} : Context T → List (Hook T)
  | .mk _ _ _ aa _ _ => aa

/-- Ordered before_each hooks of a context. -/
def Context.before_each {T : Type} : Context T → List (Hook T)
  | .mk _ _ _ _ be _ => be

/-- Ordered after_each hooks of a context. -/
def Context.after_each {T : Type} : Context T → List (Hook T)
  | .mk _ _ _ _ _ ae => ae

/-- Embeds block::Suite as used by src/src/runner/mod.rs: root node under a
header, holding the root context and the initial environment value. -/
structure Suite (T : Type) : Type where
  header : SuiteHeader
  context : Context T
  environment : T

/-- Embeds runner::Configuration as used by src/src/runner/mod.rs (the
configuration module is not part of the analysed sources; fields are those
read by the runner, per the spec, section 3). -/
structure Configuration where
  parallel : Bool
  exit_on_failure : Bool
deriving DecidableEq, Repr

/-- Embeds runner::Runner, the static part: the configuration and the
registered observers. Observer behaviour is external, so observers are
represented by their count; the trace records notifications per
registration index. -/
structure Runner where
  configuration : Configuration
  observerCount : Nat

/-- Embeds the should_exit cell of runner::Runner (a Mutex of Cell of bool),
the per-runner mutable state threaded explicitly through the model. -/
structure RunnerState where
  should_exit : Bool
deriving DecidableEq, Repr

/-- State produced by Runner::new: should_exit starts false. -/
def Runner.newState : RunnerState := ⟨false⟩

/-- Node events delivered to observers, one constructor per callback of the
RunnerObserver capability set (enter and exit per node kind, the exit
carrying the produced report). -/
inductive NodeEvent : Type where
  | enter_suite : SuiteHeader → NodeEvent
  | exit_suite : SuiteHeader → SuiteReport → NodeEvent
  | enter_context : ContextHeader → NodeEvent
  | exit_context : ContextHeader → ContextReport → NodeEvent
  | enter_example : ExampleHeader → NodeEvent
  | exit_example : ExampleHeader → ExampleReport → NodeEvent

/-- Which hook list an invocation came from. -/
inductive HookKind : Type where
  | before_all | after_all | before_each | after_each
deriving DecidableEq, Repr

/-- Trace events of an evaluation: an observer notification (the observer
named by its registration index) or a hook invocation (named by the
instrumentation name of the hook). -/
inductive Event : Type where
  | notify : Nat → NodeEvent → Event
  | hook : HookKind → String → Event

/-- Embeds Runner::broadcast: iterate the registered observers in
registration order and deliver the event to each; the trace records one
notification per observer index, in index order. -/
def Runner.broadcast (r : Runner) (e : NodeEvent) : List Event :=
  (List.range r.observerCount).map (fun i => Event.notify i e)

/-- Runs a hook list in declaration order over the environment, the
embedding of the iteration in Runner::wrap_all and Runner::wrap_each. -/
def foldHooks {T : Type} (hs : List (Hook T)) (env : T) : T :=
  hs.foldl (fun e h => h.run e) env

/-- Trace events of running a hook list in declaration order. -/
def hookEvents {T : Type} (k : HookKind) (hs : List (Hook T)) : List Event :=
  hs.map (fun h => Event.hook k h.name)

/-- Embeds Runner::wrap_all (src/src/runner/mod.rs lines 69 to 81): run
every before_all hook once in declaration order mutating the environment,
run the body on the mutated environment, run every after_all hook once in
declaration order, and return the result of the body. The body receives
the environment mutably, so it also returns the environment it leaves
behind, which the after_all hooks then see. -/
def Runner.wrap_all {T U : Type} (c : Context T) (env : T)
    (f : T → U × T × List Event) : U × T × List Event :=
  let env1 := foldHooks c.before_all env
  let (result, env2, tr) := f env1
  let env3 := foldHooks c.after_all env2
  (result, env3,
    hookEvents .before_all c.before_all ++ tr ++ hookEvents .after_all c.after_all)

/-- Embeds Runner::wrap_each (src/src/runner/mod.rs lines 83 to 95): run
every before_each hook once in declaration order, run the body, run every
after_each hook once in declaration order, and return the result of the
body. -/
def Runner.wrap_each {T U : Type} (c : Context T) (env : T)
    (f : T → U × T × List Event) : U × T × List Event :=
  let env1 := foldHooks c.before_each env
  let (result, env2, tr) := f env1
  let env3 := foldHooks c.after_each env2
  (result, env3,
    hookEvents .before_each c.before_each ++ tr ++ hookEvents .after_each c.after_each)

/-- Embeds the conditional enter_context broadcast of the Context case of
the visitor (lines 218 to 220): notify observers only when the context has
a header; the root context has none and produces no notification. -/
def ctxEnterEvents {T : Type} (r : Runner) (c : Context T) : List Event :=
  match c.header with
  | some h => r.broadcast (.enter_context h)
  | none => []

/-- Embeds the conditional exit_context broadcast of the Context case of
the visitor (lines 230 to 232). -/
def ctxExitEvents {T : Type} (r : Runner) (c : Context T)
    (rep : ContextReport) : List Event :=
  match c.header with
  | some h => r.broadcast (.exit_context h rep)
  | none => []

/-- Embeds the TestSuiteVisitor implementation for Example (lines 237 to
251): broadcast enter_example, invoke the leaf function on the current
environment, broadcast exit_example with the produced report, and return
the report verbatim. The leaf function borrows the environment immutably,
so the environment is unchanged. -/
def Runner.visitExample {T : Type} (r : Runner) (ex : Example T) (env : T) :
    ExampleReport × List Event :=
  let report := ex.function env
  (report,
    r.broadcast (.enter_example ex.header) ++
      r.broadcast (.exit_example ex.header report))

mutual
/-- Embeds the TestSuiteVisitor implementation for Block (lines 187 to
208): an Example child is delegated to the Example case under the same
environment; a Context child is delegated to the Context case under a
fresh duplicate of the environment (environment.clone in the source), so
the environment of the caller is returned unchanged. -/
def Runner.visitBlock {T : Type} (r : Runner) (b : Block T) (env : T) :
    BlockReport × T × List Event :=
  match b with
  | .Example ex =>
      let (rep, tr) := r.visitExample ex env
      (BlockReport.Example ex.header rep, env, tr)
  | .Context c =>
      let (rep, _envNested, tr) := Runner.visitContext r c env
      (BlockReport.Context c.header rep, env, tr)
termination_by (sizeOf b, 0)

/-- Embeds the TestSuiteVisitor implementation for Context (lines 210 to
235): broadcast enter_context when a header exists, run wrap_all around the
evaluation of the children under the active scheduling policy, wrap the
children reports into a position-ordered ContextReport, and broadcast
exit_context with the result when a header exists. The wrap_all composition
is written out here (before_all fold, children, after_all fold) so that the
recursion is visibly structural; the lemma relating this definition to
Runner.wrap_all is proved below. -/
def Runner.visitContext {T : Type} (r : Runner) (c : Context T) (env : T) :
    ContextReport × T × List Event :=
  let env1 := foldHooks c.before_all env
  let (reports, innerTr) :=
    if r.configuration.parallel then Runner.evaluate_blocks_parallel r c env1
    else Runner.evaluate_blocks_serial r c env1
  let env2 := foldHooks c.after_all env1
  let report := ContextReport.mk reports
  (report, env2,
    ctxEnterEvents r c ++ hookEvents .before_all c.before_all ++ innerTr ++
      hookEvents .after_all c.after_all ++ ctxExitEvents r c report)
termination_by (sizeOf c, 3)

/-- Embeds Runner::evaluate_blocks_parallel (lines 97 to 106): distribute
the children over the rayon pool and collect the reports. The ordered
collect of rayon reassembles results in declaration order, so the pure
denotation is the ordered map below; the trace is the serial linearization
of the events of the branches. -/
def Runner.evaluate_blocks_parallel {T : Type} (r : Runner) (c : Context T)
    (env : T) : List BlockReport × List Event :=
  Runner.evaluate_blocks_list r c c.blocks env
termination_by (sizeOf c, 2)
decreasing_by
  have hlt : sizeOf c.blocks < sizeOf c := by
    cases c
    simp [Context.blocks]
    omega
  exact Prod.Lex.left _ _ hlt

/-- Embeds Runner::evaluate_blocks_serial (lines 108 to 117): iterate the
children in declaration order and evaluate each. -/
def Runner.evaluate_blocks_serial {T : Type} (r : Runner) (c : Context T)
    (env : T) : List BlockReport × List Event :=
  Runner.evaluate_blocks_list r c c.blocks env
termination_by (sizeOf c, 2)
decreasing_by
  have hlt : sizeOf c.blocks < sizeOf c := by
    cases c
    simp [Context.blocks]
    omega
  exact Prod.Lex.left _ _ hlt

/-- The shared iteration of both scheduling policies: map
Runner::evaluate_block over the children, collecting reports in declaration
order and concatenating traces. Each child receives the same borrowed
environment, which evaluate_block duplicates. -/
def Runner.evaluate_blocks_list {T : Type} (r : Runner) (c : Context T)
    (bs : List (Block T)) (env : T) : List BlockReport × List Event :=
  match bs with
  | [] => ([], [])
  | b :: rest =>
      let (rep, tr) := Runner.evaluate_block r b c env
      let (reps, trs) := Runner.evaluate_blocks_list r c rest env
      (rep :: reps, tr ++ trs)
termination_by (sizeOf bs, 2)

/-- Embeds Runner::evaluate_block (lines 119 to 132): duplicate the
borrowed environment (environment.clone in the source, value duplication
here), then run wrap_each of the owning context around visiting the block
on the duplicate. The wrap_each composition is written out (before_each
fold, visit, after_each fold) so that the recursion is visibly structural;
the lemma relating this definition to Runner.wrap_each is proved below.
The mutated duplicate is dropped afterwards, exactly as in the source. -/
def Runner.evaluate_block {T : Type} (r : Runner) (b : Block T)
    (c : Context T) (env : T) : BlockReport × List Event :=
  let env0 := env
  let env1 := foldHooks c.before_each env0
  let (rep, env2, tr) := Runner.visitBlock r b env1
  let _env3 := foldHooks c.after_each env2
  (rep,
    hookEvents .before_each c.before_each ++ tr ++
      hookEvents .after_each c.after_each)
termination_by (sizeOf b, 1)
end

/-- Embeds the TestSuiteVisitor implementation for Suite (lines 169 to
185): broadcast enter_suite, recurse into the root context threading the
run environment, wrap header and context report into a SuiteReport, and
broadcast exit_suite with the result. -/
def Runner.visitSuite {T : Type} (r : Runner) (suite : Suite T) (env : T) :
    SuiteReport × T × List Event :=
  let (ctxReport, env1, tr) := r.visitContext suite.context env
  let report := SuiteReport.mk suite.header ctxReport
  (report, env1,
    r.broadcast (.enter_suite suite.header) ++ tr ++
      r.broadcast (.exit_suite suite.header report))

/-- Embeds Runner::run (lines 46 to 58), the non-interrupted path: clone
the suite environment, visit the suite, and OR the failure status of the
report into the should_exit cell; the full SuiteReport is returned to the
caller in every case. The process is never exited here; the exit decision
is taken only by the Drop implementation, modelled by
Runner.dropDecision. The panic hook install and restore around the visit
is modelled by runPanicProtocol, which also covers the interrupted path. -/
def Runner.run {T : Type} (r : Runner) (suite : Suite T) (st : RunnerState) :
    SuiteReport × RunnerState × List Event :=
  let environment := suite.environment
  let (report, _env, tr) := r.visitSuite suite environment
  (report, RunnerState.mk (st.should_exit || report.is_failure), tr)

/-- Sequential composition of several Runner::run calls on the same
runner, threading the should_exit state, as a host test binary does when
it runs several suites before the runner is dropped. -/
def Runner.runAll {T : Type} (r : Runner) (suites : List (Suite T))
    (st : RunnerState) : RunnerState :=
  suites.foldl (fun s suite => (r.run suite s).2.1) st

/-- Embeds the Drop implementation for Runner (lines 146 to 166): read the
should_exit cell and, when exit_on_failure is configured and the cell is
set, decide to terminate the process with code 101; otherwise no exit
happens. The decision is returned as an optional exit code. -/
def Runner.dropDecision (r : Runner) (st : RunnerState) : Option Nat :=
  if r.configuration.exit_on_failure && st.should_exit then some 101 else none

/-- The process-wide panic hook state: the default behaviour, a custom
hook installed by the surrounding program (identified by a number), or the
trace-suppressing hook installed by Runner::prepare_before_run. -/
inductive PanicHook : Type where
  | dflt : PanicHook
  | custom : Nat → PanicHook
  | silent : PanicHook
deriving DecidableEq, Repr

/-- Payload of an unexpected, uncaught failure (a panic) escaping the
visitation, for instance out of a hook or an observer callback. -/
structure PanicInfo where
  message : String
deriving DecidableEq, Repr

/-- Embeds the panic hook protocol of Runner::run (lines 50 to 53 together
with prepare_before_run and clean_after_run, lines 134 to 143), abstracted
over the outcome of the visitation, which either returns a SuiteReport or
is interrupted by a panic. Rust panic semantics: a panic unwinds past the
remaining statements of run, so clean_after_run only executes on the
normal path. prepare_before_run calls panic set_hook, which overwrites the
current process-wide hook with the suppressing one; clean_after_run calls
panic take_hook, which removes the current hook, after which the default
behaviour is in effect. -/
def runPanicProtocol (body : Except PanicInfo SuiteReport)
    (_hPrev : PanicHook) : Except PanicInfo SuiteReport × PanicHook :=
  let installed := PanicHook.silent
  match body with
  | .ok report => (.ok report, PanicHook.dflt)
  | .error e => (.error e, installed)

/-- The shape of a declared tree and of a report tree: one node per
example (with its header) and one node per context (with its optional
header and the ordered shapes of its children). Shape equality is the
topology isomorphism of the spec, including declaration order. -/
inductive Shape : Type where
  | Example : ExampleHeader → Shape
  | Context : Option ContextHeader → List Shape → Shape

mutual
/-- Shape of a declared block. -/
def Block.shape {T : Type} : Block T → Shape
  | .Example ex => Shape.Example ex.header
  | .Context c => Context.shape c
termination_by b => (sizeOf b, 3)

/-- Shape of a declared context: its optional header and the ordered
shapes of its children. -/
def Context.shape {T : Type} (c : Context T) : Shape :=
  Shape.Context c.header (Block.shapeList c.blocks)
termination_by (sizeOf c, 2)
decreasing_by
  have hlt : sizeOf c.blocks < sizeOf c := by
    cases c
    simp [Context.blocks]
    omega
  exact Prod.Lex.left _ _ hlt

/-- Shapes of a list of declared blocks, in declaration order. -/
def Block.shapeList {T : Type} : List (Block T) → List Shape
  | [] => []
  | b :: rest => b.shape :: Block.shapeList rest
termination_by bs => (sizeOf bs, 2)
end

mutual
/-- Shape of a block report. -/
def BlockReport.shape : BlockReport → Shape
  | .Example h _ => Shape.Example h
  | .Context h cr => Shape.Context h cr.childShapes
termination_by b => (sizeOf b, 1)

/-- Shapes of the children of a context report, in report order. -/
def ContextReport.childShapes : ContextReport → List Shape
  | .mk bs => BlockReport.shapeListShapes bs
termination_by c => (sizeOf c, 1)

/-- Shapes of a list of block reports. -/
def BlockReport.shapeListShapes : List BlockReport → List Shape
  | [] => []
  | b :: rest => b.shape :: BlockReport.shapeListShapes rest
termination_by bs => (sizeOf bs, 0)
end

mutual
/-- All hook names declared anywhere in a block subtree (instrumentation
names of the hooks of nested contexts and their descendants). -/
def Block.hookNames {T : Type} : Block T → List String
  | .Example _ => []
  | .Context c => Context.hookNames c
termination_by b => (sizeOf b, 2)

/-- All hook names declared in a context or anywhere beneath it. -/
def Context.hookNames {T : Type} (c : Context T) : List String :=
  (c.before_all ++ c.after_all ++ c.before_each ++ c.after_each).map Hook.name
    ++ Block.hookNamesList c.blocks
termination_by (sizeOf c, 2)
decreasing_by
  have hlt : sizeOf c.blocks < sizeOf c := by
    cases c
    simp [Context.blocks]
    omega
  exact Prod.Lex.left _ _ hlt

/-- All hook names declared anywhere in a list of block subtrees. -/
def Block.hookNamesList {T : Type} : List (Block T) → List String
  | [] => []
  | b :: rest => b.hookNames ++ Block.hookNamesList rest
termination_by bs => (sizeOf bs, 2)
end

/-- Number of hook invocation events with the given instrumentation name
in a trace (of any hook kind). -/
def countHookEvents (nm : String) (tr : List Event) : Nat :=
  tr.countP fun e =>
    match e with
    | .hook _ n => n == nm
    | _ => false

/-! Concrete fixtures used by witnesses and counterexamples. -/

/-- Fixture: a suite header. -/
def hdrSuiteA : SuiteHeader := ⟨"describe", "suite A"⟩

/-- Fixture: a second, distinct suite header. -/
def hdrSuiteB : SuiteHeader := ⟨"describe", "suite B"⟩

/-- Fixture: a context header. -/
def hdrCtx : ContextHeader := ⟨"describe", "a group"⟩

/-- Fixture: an example header. -/
def hdrEx : ExampleHeader := ⟨"it", "works"⟩

/-- Fixture: a passing example over a Nat environment. -/
def exPass : Example Nat := ⟨hdrEx, fun _ => ExampleReport.Success⟩

/-- Fixture: a failing example over a Nat environment. -/
def exFail : Example Nat := ⟨hdrEx, fun _ => ExampleReport.Failure (some "boom")⟩

/-- Fixture: a nested context with a header, its own before_each hook and
two examples. -/
def cInner : Context Nat :=
  Context.mk (some hdrCtx) [Block.Example exPass, Block.Example exPass]
    [] [] [⟨"inner be", fun n => n + 10⟩] []

/-- Fixture: the nested context as a child block. -/
def bNested : Block Nat := Block.Context cInner

/-- Fixture: an outer before_each hook. -/
def hkOuterBE : Hook Nat := ⟨"outer be", fun n => n + 1⟩

/-- Fixture: an outer after_each hook. -/
def hkOuterAE : Hook Nat := ⟨"outer ae", fun n => n⟩

/-- Fixture: an outer context whose only child is the nested context, with
its own before_each and after_each hooks. -/
def cOuter : Context Nat :=
  Context.mk none [bNested] [] [] [hkOuterBE] [hkOuterAE]

/-- Fixture: an empty, headerless context (the shape of a root context). -/
def cEmptyNone : Context Nat := Context.mk none [] [] [] [] []

/-- Fixture: an empty context that has a header. -/
def cEmptySome : Context Nat := Context.mk (some hdrCtx) [] [] [] [] []

/-- Fixture: a runner with serial scheduling, no exit on failure and one
registered observer. -/
def rSerialOne : Runner := ⟨⟨false, false⟩, 1⟩

/-- Fixture: a runner with exit_on_failure configured. -/
def rExit : Runner := ⟨⟨false, true⟩, 0⟩

/-- Fixture: a runner with exit_on_failure not configured. -/
def rNoExit : Runner := ⟨⟨false, false⟩, 0⟩

/-- Fixture: a passing suite. -/
def suitePassA : Suite Nat := ⟨hdrSuiteA, cEmptyNone, 0⟩

/-- Fixture: a second passing suite with a different header. -/
def suitePassB : Suite Nat := ⟨hdrSuiteB, cEmptyNone, 0⟩

/-- Fixture: a failing suite (one failing example under the root). -/
def suiteFail : Suite Nat :=
  ⟨hdrSuiteA, Context.mk none [Block.Example exFail] [] [] [] [], 0⟩

/-- Fixture: a suite report of a passing empty suite. -/
def repPassA : SuiteReport := ⟨hdrSuiteA, ContextReport.mk []⟩

/-! Helper lemmas: unfolding characterizations of the visitor functions. -/

theorem visitExample_eq {T : Type} (r : Runner) (ex : Example T) (env : T) :
    r.visitExample ex env =
      (ex.function env,
        r.broadcast (.enter_example ex.header) ++
          r.broadcast (.exit_example ex.header (ex.function env))) := rfl

theorem wrap_all_eq {T U : Type} (c : Context T) (env : T)
    (f : T → U × T × List Event) :
    Runner.wrap_all c env f =
      ((f (foldHooks c.before_all env)).1,
        foldHooks c.after_all (f (foldHooks c.before_all env)).2.1,
        hookEvents .before_all c.before_all ++
          (f (foldHooks c.before_all env)).2.2 ++
          hookEvents .after_all c.after_all) := rfl

theorem wrap_each_eq {T U : Type} (c : Context T) (env : T)
    (f : T → U × T × List Event) :
    Runner.wrap_each c env f =
      ((f (foldHooks c.before_each env)).1,
        foldHooks c.after_each (f (foldHooks c.before_each env)).2.1,
        hookEvents .before_each c.before_each ++
          (f (foldHooks c.before_each env)).2.2 ++
          hookEvents .after_each c.after_each) := rfl

theorem evaluate_blocks_list_nil {T : Type} (r : Runner) (c : Context T)
    (env : T) : Runner.evaluate_blocks_list r c [] env = ([], []) := by
  simp [Runner.evaluate_blocks_list]

theorem evaluate_blocks_list_cons {T : Type} (r : Runner) (c : Context T)
    (b : Block T) (rest : List (Block T)) (env : T) :
    Runner.evaluate_blocks_list r c (b :: rest) env =
      ((Runner.evaluate_block r b c env).1 ::
          (Runner.evaluate_blocks_list r c rest env).1,
        (Runner.evaluate_block r b c env).2 ++
          (Runner.evaluate_blocks_list r c rest env).2) := by
  simp [Runner.evaluate_blocks_list]

theorem evaluate_block_eq {T : Type} (r : Runner) (b : Block T)
    (c : Context T) (env : T) :
    Runner.evaluate_block r b c env =
      ((Runner.visitBlock r b (foldHooks c.before_each env)).1,
        hookEvents .before_each c.before_each ++
          (Runner.visitBlock r b (foldHooks c.before_each env)).2.2 ++
          hookEvents .after_each c.after_each) := by
  simp [Runner.evaluate_block]

theorem evaluate_block_eq_wrap_each {T : Type} (r : Runner) (b : Block T)
    (c : Context T) (env : T) :
    Runner.evaluate_block r b c env =
      ((Runner.wrap_each c env fun e => Runner.visitBlock r b e).1,
        (Runner.wrap_each c env fun e => Runner.visitBlock r b e).2.2) := by
  rw [wrap_each_eq]
  exact evaluate_block_eq r b c env

theorem visitBlock_Example_eq {T : Type} (r : Runner) (ex : Example T)
    (env : T) :
    Runner.visitBlock r (Block.Example ex) env =
      (BlockReport.Example ex.header (ex.function env), env,
        r.broadcast (.enter_example ex.header) ++
          r.broadcast (.exit_example ex.header (ex.function env))) := by
  simp [Runner.visitBlock, Runner.visitExample]

theorem visitBlock_Context_eq {T : Type} (r : Runner) (c : Context T)
    (env : T) :
    Runner.visitBlock r (Block.Context c) env =
      (BlockReport.Context c.header (Runner.visitContext r c env).1, env,
        (Runner.visitContext r c env).2.2) := by
  simp [Runner.visitBlock]

theorem visitContext_eq {T : Type} (r : Runner) (c : Context T) (env : T) :
    Runner.visitContext r c env =
      (ContextReport.mk
          (Runner.evaluate_blocks_list r c c.blocks
            (foldHooks c.before_all env)).1,
        foldHooks c.after_all (foldHooks c.before_all env),
        ctxEnterEvents r c ++ hookEvents .before_all c.before_all ++
          (Runner.evaluate_blocks_list r c c.blocks
            (foldHooks c.before_all env)).2 ++
          hookEvents .after_all c.after_all ++
          ctxExitEvents r c
            (ContextReport.mk
              (Runner.evaluate_blocks_list r c c.blocks
                (foldHooks c.before_all env)).1)) := by
  by_cases hp : r.configuration.parallel <;>
    simp [Runner.visitContext, Runner.evaluate_blocks_parallel,
      Runner.evaluate_blocks_serial, hp]

theorem visitSuite_eq {T : Type} (r : Runner) (s : Suite T) (env : T) :
    r.visitSuite s env =
      (SuiteReport.mk s.header (r.visitContext s.context env).1,
        (r.visitContext s.context env).2.1,
        r.broadcast (.enter_suite s.header) ++
          (r.visitContext s.context env).2.2 ++
          r.broadcast
            (.exit_suite s.header
              (SuiteReport.mk s.header (r.visitContext s.context env).1))) := by
  simp [Runner.visitSuite]

theorem run_eq {T : Type} (r : Runner) (s : Suite T) (st : RunnerState) :
    r.run s st =
      ((r.visitSuite s s.environment).1,
        RunnerState.mk
          (st.should_exit || (r.visitSuite s s.environment).1.is_failure),
        (r.visitSuite s s.environment).2.2) := by
  simp [Runner.run]

/-! Helper lemmas: counting hook events in traces. -/

theorem countHookEvents_nil (nm : String) : countHookEvents nm [] = 0 := rfl

theorem countHookEvents_append (nm : String) (a b : List Event) :
    countHookEvents nm (a ++ b) =
      countHookEvents nm a + countHookEvents nm b := by
  simp [countHookEvents, List.countP_append]

theorem countHookEvents_broadcast (nm : String) (r : Runner) (e : NodeEvent) :
    countHookEvents nm (r.broadcast e) = 0 := by
  simp only [countHookEvents, Runner.broadcast]
  rw [List.countP_eq_zero]
  intro x hx
  simp only [List.mem_map] at hx
  obtain ⟨i, _, rfl⟩ := hx
  simp

theorem countHookEvents_hookEvents {T : Type} (nm : String) (k : HookKind)
    (hs : List (Hook T)) (h : nm ∉ hs.map Hook.name) :
    countHookEvents nm (hookEvents k hs) = 0 := by
  simp only [countHookEvents, hookEvents]
  rw [List.countP_eq_zero]
  intro x hx
  simp only [List.mem_map] at hx
  obtain ⟨hh, hmem, rfl⟩ := hx
  simp only [beq_iff_eq]
  intro hcontra
  exact h (List.mem_map.mpr ⟨hh, hmem, hcontra⟩)

theorem countHookEvents_ctxEnter {T : Type} (nm : String) (r : Runner)
    (c : Context T) : countHookEvents nm (ctxEnterEvents r c) = 0 := by
  unfold ctxEnterEvents
  cases c.header <;> simp [countHookEvents_nil, countHookEvents_broadcast]

theorem countHookEvents_ctxExit {T : Type} (nm : String) (r : Runner)
    (c : Context T) (rep : ContextReport) :
    countHookEvents nm (ctxExitEvents r c rep) = 0 := by
  unfold ctxExitEvents
  cases c.header <;> simp [countHookEvents_nil, countHookEvents_broadcast]

/-! Helper lemmas: hook events inside a subtree evaluation only come from
hooks declared inside that subtree. -/

mutual
theorem visitBlock_hookCount {T : Type} (r : Runner) (b : Block T) (env : T)
    (nm : String) (h : nm ∉ Block.hookNames b) :
    countHookEvents nm (Runner.visitBlock r b env).2.2 = 0 := by
  cases b with
  | Example ex =>
      rw [visitBlock_Example_eq]
      simp [countHookEvents_append, countHookEvents_broadcast]
  | Context c =>
      rw [visitBlock_Context_eq]
      exact visitContext_hookCount r c env nm
        (by simpa [Block.hookNames] using h)
termination_by (sizeOf b, 0)

theorem visitContext_hookCount {T : Type} (r : Runner) (c : Context T)
    (env : T) (nm : String) (h : nm ∉ Context.hookNames c) :
    countHookEvents nm (Runner.visitContext r c env).2.2 = 0 := by
  rw [Context.hookNames] at h
  simp only [List.map_append, List.mem_append, not_or] at h
  obtain ⟨⟨⟨⟨hba, haa⟩, hbe⟩, hae⟩, hblocks⟩ := h
  rw [visitContext_eq]
  simp only [countHookEvents_append, countHookEvents_ctxEnter,
    countHookEvents_ctxExit,
    countHookEvents_hookEvents nm .before_all c.before_all hba,
    countHookEvents_hookEvents nm .after_all c.after_all haa,
    evaluate_blocks_list_hookCount r c c.blocks (foldHooks c.before_all env)
      nm hbe hae hblocks]
termination_by (sizeOf c, 3)
decreasing_by
  have hlt : sizeOf c.blocks < sizeOf c := by
    cases c
    simp [Context.blocks]
    omega
  exact Prod.Lex.left _ _ hlt

theorem evaluate_blocks_list_hookCount {T : Type} (r : Runner)
    (c : Context T) (bs : List (Block T)) (env : T) (nm : String)
    (hbe : nm ∉ c.before_each.map Hook.name)
    (hae : nm ∉ c.after_each.map Hook.name)
    (hbs : nm ∉ Block.hookNamesList bs) :
    countHookEvents nm (Runner.evaluate_blocks_list r c bs env).2 = 0 := by
  cases bs with
  | nil =>
      rw [evaluate_blocks_list_nil]
      rfl
  | cons b rest =>
      rw [Block.hookNamesList] at hbs
      simp only [List.mem_append, not_or] at hbs
      rw [evaluate_blocks_list_cons]
      simp only [countHookEvents_append,
        evaluate_block_hookCount r b c env nm hbe hae hbs.1,
        evaluate_blocks_list_hookCount r c rest env nm hbe hae hbs.2]
termination_by (sizeOf bs, 2)

theorem evaluate_block_hookCount {T : Type} (r : Runner) (b : Block T)
    (c : Context T) (env : T) (nm : String)
    (hbe : nm ∉ c.before_each.map Hook.name)
    (hae : nm ∉ c.after_each.map Hook.name)
    (hb : nm ∉ Block.hookNames b) :
    countHookEvents nm (Runner.evaluate_block r b c env).2 = 0 := by
  rw [evaluate_block_eq]
  simp only [countHookEvents_append,
    countHookEvents_hookEvents nm .before_each c.before_each hbe,
    countHookEvents_hookEvents nm .after_each c.after_each hae,
    visitBlock_hookCount r b (foldHooks c.before_each env) nm hb]
termination_by (sizeOf b, 1)
end

/-! Helper lemmas: the produced report tree has the shape of the declared
tree, with children in declaration order. -/

mutual
theorem visitBlock_shape {T : Type} (r : Runner) (b : Block T) (env : T) :
    ((Runner.visitBlock r b env).1).shape = b.shape := by
  cases b with
  | Example ex =>
      rw [visitBlock_Example_eq]
      simp [BlockReport.shape, Block.shape]
  | Context c =>
      rw [visitBlock_Context_eq]
      simp only [BlockReport.shape, Block.shape, Context.shape]
      rw [visitContext_shape r c env]
termination_by (sizeOf b, 0)

theorem visitContext_shape {T : Type} (r : Runner) (c : Context T) (env : T) :
    ((Runner.visitContext r c env).1).childShapes = Block.shapeList c.blocks := by
  rw [visitContext_eq]
  simp only [ContextReport.childShapes]
  exact evaluate_blocks_list_shape r c c.blocks (foldHooks c.before_all env)
termination_by (sizeOf c, 3)
decreasing_by
  have hlt : sizeOf c.blocks < sizeOf c := by
    cases c
    simp [Context.blocks]
    omega
  exact Prod.Lex.left _ _ hlt

theorem evaluate_blocks_list_shape {T : Type} (r : Runner) (c : Context T)
    (bs : List (Block T)) (env : T) :
    BlockReport.shapeListShapes (Runner.evaluate_blocks_list r c bs env).1 =
      Block.shapeList bs := by
  cases bs with
  | nil =>
      rw [evaluate_blocks_list_nil]
      simp [BlockReport.shapeListShapes, Block.shapeList]
  | cons b rest =>
      rw [evaluate_blocks_list_cons]
      simp only [BlockReport.shapeListShapes, Block.shapeList]
      rw [evaluate_block_shape r b c env,
        evaluate_blocks_list_shape r c rest env]
termination_by (sizeOf bs, 2)

theorem evaluate_block_shape {T : Type} (r : Runner) (b : Block T)
    (c : Context T) (env : T) :
    ((Runner.evaluate_block r b c env).1).shape = b.shape := by
  rw [evaluate_block_eq]
  exact visitBlock_shape r b (foldHooks c.before_each env)
termination_by (sizeOf b, 1)
end

/-! Helper lemmas: the failure predicate holds exactly when a Failure leaf
exists somewhere in the report tree. -/

theorem ExampleReport_is_failure_iff (er : ExampleReport) :
    er.is_failure = true ↔ ∃ d, er = ExampleReport.Failure d := by
  cases er <;> simp [ExampleReport.is_failure]

mutual
theorem BlockReport_is_failure_iff (b : BlockReport) :
    b.is_failure = true ↔
      ∃ d, ExampleReport.Failure d ∈ b.exampleReports := by
  cases b with
  | Example h er =>
      simp only [BlockReport.is_failure, BlockReport.exampleReports,
        List.mem_singleton]
      cases er <;> simp [ExampleReport.is_failure]
  | Context h cr =>
      simp only [BlockReport.is_failure, BlockReport.exampleReports]
      exact ContextReport_is_failure_iff cr
termination_by (sizeOf b, 1)

theorem ContextReport_is_failure_iff (c : ContextReport) :
    c.is_failure = true ↔
      ∃ d, ExampleReport.Failure d ∈ c.exampleReports := by
  cases c with
  | mk bs =>
      simp only [ContextReport.is_failure, ContextReport.exampleReports]
      exact any_failure_iff bs
termination_by (sizeOf c, 1)

theorem any_failure_iff (bs : List BlockReport) :
    BlockReport.any_failure bs = true ↔
      ∃ d, ExampleReport.Failure d ∈ BlockReport.exampleReportsList bs := by
  cases bs with
  | nil => simp [BlockReport.any_failure, BlockReport.exampleReportsList]
  | cons b rest =>
      simp only [BlockReport.any_failure, BlockReport.exampleReportsList,
        Bool.or_eq_true, List.mem_append]
      rw [BlockReport_is_failure_iff b, any_failure_iff rest]
      constructor
      · rintro (⟨d, hd⟩ | ⟨d, hd⟩)
        · exact ⟨d, Or.inl hd⟩
        · exact ⟨d, Or.inr hd⟩
      · rintro ⟨d, hd | hd⟩
        · exact Or.inl ⟨d, hd⟩
        · exact Or.inr ⟨d, hd⟩
termination_by (sizeOf bs, 0)
end

/-! Helper lemmas: composition of runs and the exit flag. -/

theorem runAll_nil {T : Type} (r : Runner) (st : RunnerState) :
    Runner.runAll r ([] : List (Suite T)) st = st := rfl

theorem runAll_cons {T : Type} (r : Runner) (s : Suite T)
    (rest : List (Suite T)) (st : RunnerState) :
    Runner.runAll r (s :: rest) st =
      Runner.runAll r rest ((r.run s st).2.1) := rfl

theorem runAll_should_exit {T : Type} (r : Runner) (suites : List (Suite T))
    (b : Bool) :
    (Runner.runAll r suites ⟨b⟩).should_exit =
      (b || suites.any fun s => (r.visitSuite s s.environment).1.is_failure) := by
  induction suites generalizing b with
  | nil => simp [runAll_nil]
  | cons s rest ih =>
      rw [runAll_cons, run_eq]
      simp only
      rw [ih]
      simp [Bool.or_assoc]

/-! Helper lemma: sibling evaluations are computed from the same starting
environment, independently of one another. -/

theorem evaluate_blocks_list_append {T : Type} (r : Runner) (c : Context T)
    (xs ys : List (Block T)) (env : T) :
    Runner.evaluate_blocks_list r c (xs ++ ys) env =
      ((Runner.evaluate_blocks_list r c xs env).1 ++
          (Runner.evaluate_blocks_list r c ys env).1,
        (Runner.evaluate_blocks_list r c xs env).2 ++
          (Runner.evaluate_blocks_list r c ys env).2) := by
  induction xs with
  | nil => simp [evaluate_blocks_list_nil]
  | cons b rest ih =>
      simp only [List.cons_append, evaluate_blocks_list_cons, ih,
        List.append_assoc]

/-! Helper lemmas: visiting a block leaves the environment of the caller
unchanged, and the evaluation result does not depend on the scheduling
policy flag. -/

theorem visitBlock_env {T : Type} (r : Runner) (b : Block T) (env : T) :
    (Runner.visitBlock r b env).2.1 = env := by
  cases b with
  | Example ex => rw [visitBlock_Example_eq]
  | Context c => rw [visitBlock_Context_eq]

theorem parallel_eq_serial {T : Type} (r : Runner) (c : Context T) (env : T) :
    Runner.evaluate_blocks_parallel r c env =
      Runner.evaluate_blocks_serial r c env := by
  simp [Runner.evaluate_blocks_parallel, Runner.evaluate_blocks_serial]

theorem broadcast_obs (cfg1 cfg2 : Configuration) (n : Nat) (e : NodeEvent) :
    Runner.broadcast ⟨cfg1, n⟩ e = Runner.broadcast ⟨cfg2, n⟩ e := rfl

theorem ctxEnterEvents_obs {T : Type} (cfg1 cfg2 : Configuration) (n : Nat)
    (c : Context T) : ctxEnterEvents ⟨cfg1, n⟩ c = ctxEnterEvents ⟨cfg2, n⟩ c := by
  unfold ctxEnterEvents
  cases c.header <;> rfl

theorem ctxExitEvents_obs {T : Type} (cfg1 cfg2 : Configuration) (n : Nat)
    (c : Context T) (rep : ContextReport) :
    ctxExitEvents ⟨cfg1, n⟩ c rep = ctxExitEvents ⟨cfg2, n⟩ c rep := by
  unfold ctxExitEvents
  cases c.header <;> rfl

mutual
theorem visitBlock_policy {T : Type} (p1 p2 eo : Bool) (n : Nat) (b : Block T)
    (env : T) :
    Runner.visitBlock ⟨⟨p1, eo⟩, n⟩ b env =
      Runner.visitBlock ⟨⟨p2, eo⟩, n⟩ b env := by
  cases b with
  | Example ex =>
      rw [visitBlock_Example_eq, visitBlock_Example_eq]
      rfl
  | Context c =>
      rw [visitBlock_Context_eq, visitBlock_Context_eq,
        visitContext_policy p1 p2 eo n c env]
termination_by (sizeOf b, 0)

theorem visitContext_policy {T : Type} (p1 p2 eo : Bool) (n : Nat)
    (c : Context T) (env : T) :
    Runner.visitContext ⟨⟨p1, eo⟩, n⟩ c env =
      Runner.visitContext ⟨⟨p2, eo⟩, n⟩ c env := by
  rw [visitContext_eq, visitContext_eq,
    evaluate_blocks_list_policy p1 p2 eo n c c.blocks (foldHooks c.before_all env),
    ctxEnterEvents_obs ⟨p1, eo⟩ ⟨p2, eo⟩ n c,
    ctxExitEvents_obs ⟨p1, eo⟩ ⟨p2, eo⟩ n c]
termination_by (sizeOf c, 3)
decreasing_by
  have hlt : sizeOf c.blocks < sizeOf c := by
    cases c
    simp [Context.blocks]
    omega
  exact Prod.Lex.left _ _ hlt

theorem evaluate_blocks_list_policy {T : Type} (p1 p2 eo : Bool) (n : Nat)
    (c : Context T) (bs : List (Block T)) (env : T) :
    Runner.evaluate_blocks_list ⟨⟨p1, eo⟩, n⟩ c bs env =
      Runner.evaluate_blocks_list ⟨⟨p2, eo⟩, n⟩ c bs env := by
  cases bs with
  | nil => rw [evaluate_blocks_list_nil, evaluate_blocks_list_nil]
  | cons b rest =>
      rw [evaluate_blocks_list_cons, evaluate_blocks_list_cons,
        evaluate_block_policy p1 p2 eo n b c env,
        evaluate_blocks_list_policy p1 p2 eo n c rest env]
termination_by (sizeOf bs, 2)

theorem evaluate_block_policy {T : Type} (p1 p2 eo : Bool) (n : Nat)
    (b : Block T) (c : Context T) (env : T) :
    Runner.evaluate_block ⟨⟨p1, eo⟩, n⟩ b c env =
      Runner.evaluate_block ⟨⟨p2, eo⟩, n⟩ b c env := by
  rw [evaluate_block_eq, evaluate_block_eq,
    visitBlock_policy p1 p2 eo n b (foldHooks c.before_each env)]
termination_by (sizeOf b, 1)
end

theorem visitSuite_policy {T : Type} (p1 p2 eo : Bool) (n : Nat)
    (s : Suite T) (env : T) :
    Runner.visitSuite ⟨⟨p1, eo⟩, n⟩ s env =
      Runner.visitSuite ⟨⟨p2, eo⟩, n⟩ s env := by
  rw [visitSuite_eq, visitSuite_eq,
    visitContext_policy p1 p2 eo n s.context env]
  rfl

/-! Claim theorems. -/

/-- C1: for every context and every direct child block of that context,
evaluating that child (Runner::evaluate_block) runs all of the context
before_each hooks once, in declaration order, before the child evaluation
and all of its after_each hooks once, in declaration order, after it; the
first conjunct is the contract of Runner::wrap_each, the second its use in
evaluate_block. The third conjunct shows that the trace of the child
subtree contains no hook event whose name is not declared inside that
subtree, so when the child is itself a nested Context the parent
before_each and after_each events occur exactly once around the entire
nested subtree evaluation, never once per leaf example inside it. -/
theorem spec_C1_each_hooks_scope_to_direct_child {T : Type} (r : Runner)
    (c : Context T) (b : Block T) (env : T) :
    (∀ (U : Type) (f : T → U × T × List Event),
      Runner.wrap_each c env f =
        ((f (foldHooks c.before_each env)).1,
          foldHooks c.after_each (f (foldHooks c.before_each env)).2.1,
          hookEvents .before_each c.before_each ++
            (f (foldHooks c.before_each env)).2.2 ++
            hookEvents .after_each c.after_each)) ∧
    (Runner.evaluate_block r b c env =
      ((Runner.visitBlock r b (foldHooks c.before_each env)).1,
        hookEvents .before_each c.before_each ++
          (Runner.visitBlock r b (foldHooks c.before_each env)).2.2 ++
          hookEvents .after_each c.after_each)) ∧
    (∀ nm, nm ∉ Block.hookNames b →
      countHookEvents nm
        (Runner.visitBlock r b (foldHooks c.before_each env)).2.2 = 0) :=
  ⟨fun _ f => wrap_each_eq c env f, evaluate_block_eq r b c env,
    fun nm h => visitBlock_hookCount r b (foldHooks c.before_each env) nm h⟩

/-- C1 witness: the outer before_each hook of the fixture context never
appears in the trace of the nested child subtree (which contains two leaf
examples and its own before_each hook). -/
theorem spec_C1_witness :
    countHookEvents "outer be"
      (Runner.visitBlock rSerialOne bNested
        (foldHooks cOuter.before_each (0 : Nat))).2.2 = 0 :=
  (spec_C1_each_hooks_scope_to_direct_child rSerialOne cOuter bNested 0).2.2
    "outer be"
    (by simp [bNested, Block.hookNames, Context.hookNames, cInner,
      Context.before_all, Context.after_all, Context.before_each,
      Context.after_each, Context.blocks, Block.hookNamesList])

/-- C2: for every input tree and for both scheduling policies, the report
tree returned by visiting the tree has the same header and a shape equal to
the shape of the input tree, listing the children of every context in
declaration order; and varying only the parallel flag does not change the
returned report. -/
theorem spec_C2_report_tree_isomorphic {T : Type} (r : Runner) (s : Suite T)
    (env : T) :
    ((r.visitSuite s env).1).header = s.header ∧
    ((r.visitSuite s env).1).context.childShapes =
      Block.shapeList s.context.blocks ∧
    (∀ (p1 p2 eo : Bool) (n : Nat),
      (Runner.visitSuite ⟨⟨p1, eo⟩, n⟩ s env).1 =
        (Runner.visitSuite ⟨⟨p2, eo⟩, n⟩ s env).1) := by
  refine ⟨?_, ?_, ?_⟩
  · rw [visitSuite_eq]
  · rw [visitSuite_eq]
    exact visitContext_shape r s.context env
  · intro p1 p2 eo n
    rw [visitSuite_policy p1 p2 eo n s env]

/-- C3: one visitation of a context runs every before_all hook exactly once
in declaration order, mutating the environment, before any child block is
evaluated, then evaluates the children on the mutated environment, then
runs every after_all hook exactly once in declaration order, and returns
the children result; the first conjunct is the contract of
Runner::wrap_all, the second shows that the visitation of a context is
exactly one such wrap_all composition around the children evaluation. -/
theorem spec_C3_all_hooks_once_per_visitation {T : Type} (r : Runner)
    (c : Context T) (env : T) :
    (∀ (U : Type) (f : T → U × T × List Event),
      Runner.wrap_all c env f =
        ((f (foldHooks c.before_all env)).1,
          foldHooks c.after_all (f (foldHooks c.before_all env)).2.1,
          hookEvents .before_all c.before_all ++
            (f (foldHooks c.before_all env)).2.2 ++
            hookEvents .after_all c.after_all)) ∧
    Runner.visitContext r c env =
      (ContextReport.mk
          (Runner.evaluate_blocks_list r c c.blocks
            (foldHooks c.before_all env)).1,
        foldHooks c.after_all (foldHooks c.before_all env),
        ctxEnterEvents r c ++ hookEvents .before_all c.before_all ++
          (Runner.evaluate_blocks_list r c c.blocks
            (foldHooks c.before_all env)).2 ++
          hookEvents .after_all c.after_all ++
          ctxExitEvents r c
            (ContextReport.mk
              (Runner.evaluate_blocks_list r c c.blocks
                (foldHooks c.before_all env)).1)) :=
  ⟨fun _ f => wrap_all_eq c env f, visitContext_eq r c env⟩

/-- C4: the failure predicate holds exactly when at least one
ExampleReport Failure exists anywhere in the report tree, at every level
of the report model; Ignored and Success never cause failure, as the two
concrete list conjuncts check. -/
theorem spec_C4_failure_predicate :
    (∀ er : ExampleReport,
      er.is_failure = true ↔ ∃ d, er = ExampleReport.Failure d) ∧
    (∀ b : BlockReport,
      b.is_failure = true ↔ ∃ d, ExampleReport.Failure d ∈ b.exampleReports) ∧
    (∀ c : ContextReport,
      c.is_failure = true ↔ ∃ d, ExampleReport.Failure d ∈ c.exampleReports) ∧
    (∀ s : SuiteReport,
      s.is_failure = true ↔
        ∃ d, ExampleReport.Failure d ∈ s.context.exampleReports) ∧
    (ContextReport.mk [BlockReport.Example hdrEx .Success,
        BlockReport.Example hdrEx (.Failure none),
        BlockReport.Example hdrEx .Success]).is_failure = true ∧
    (ContextReport.mk [BlockReport.Example hdrEx .Success,
        BlockReport.Example hdrEx .Ignored,
        BlockReport.Example hdrEx .Success]).is_failure = false := by
  refine ⟨ExampleReport_is_failure_iff, BlockReport_is_failure_iff,
    ContextReport_is_failure_iff,
    fun s => ContextReport_is_failure_iff s.context, ?_, ?_⟩
  · simp [ContextReport.is_failure, BlockReport.any_failure,
      BlockReport.is_failure, ExampleReport.is_failure]
  · simp [ContextReport.is_failure, BlockReport.any_failure,
      BlockReport.is_failure, ExampleReport.is_failure]

/-- C5 counterexample: the claim fails on the code on two concrete inputs.
First, when the visitation is interrupted by a panic, Runner::run unwinds
before clean_after_run, so the suppressing hook stays installed: starting
from the default behaviour, the final hook state is silent, not the
previous default. Second, even on the normal path the code resets the
panic behaviour to the default (panic take_hook), not to the previously
installed behaviour: starting from a custom hook, the final state is the
default, not that custom hook. -/
theorem spec_C5_counterexample :
    (runPanicProtocol (.error ⟨"boom"⟩) PanicHook.dflt).2 = PanicHook.silent ∧
    PanicHook.silent ≠ PanicHook.dflt ∧
    (runPanicProtocol (.ok repPassA) (PanicHook.custom 7)).2 = PanicHook.dflt ∧
    PanicHook.dflt ≠ PanicHook.custom 7 :=
  ⟨rfl, by decide, rfl, by decide⟩

/-- C5 amended: every top-level run call installs the process-wide
suppressing panic hook before visiting any node; on normal completion it
resets the panic behaviour to the default (not necessarily the previously
installed behaviour); when an unexpected, uncaught failure occurs during
visitation, the failure propagates out of run rather than being absorbed,
and on that path the suppressing hook is not removed. -/
theorem spec_C5_panic_hook_protocol (body : Except PanicInfo SuiteReport)
    (hPrev : PanicHook) :
    runPanicProtocol body hPrev =
      (body,
        match body with
        | .ok _ => PanicHook.dflt
        | .error _ => PanicHook.silent) := by
  cases body <;> rfl

/-- C6: at Runner teardown the process terminates with exit code 101 iff
exit_on_failure is configured and some run on that runner produced a
failing report; with exit_on_failure false the teardown never terminates
the process; and the only exit code the teardown can ever decide is 101.
The run operation itself never exits: its result type carries only the
report, the updated state and the trace. -/
theorem spec_C6_exit_decision {T : Type} (r : Runner)
    (suites : List (Suite T)) :
    (Runner.dropDecision r (Runner.runAll r suites Runner.newState) =
        some 101 ↔
      r.configuration.exit_on_failure = true ∧
        (suites.any fun s =>
          (r.visitSuite s s.environment).1.is_failure) = true) ∧
    (r.configuration.exit_on_failure = false →
      Runner.dropDecision r (Runner.runAll r suites Runner.newState) =
        none) ∧
    (∀ (st : RunnerState) (code : Nat),
      Runner.dropDecision r st = some code → code = 101) := by
  have hflag : (Runner.runAll r suites Runner.newState).should_exit =
      (suites.any fun s => (r.visitSuite s s.environment).1.is_failure) := by
    have h := runAll_should_exit r suites false
    simpa [Runner.newState] using h
  refine ⟨?_, ?_, ?_⟩
  · by_cases h1 : r.configuration.exit_on_failure <;>
      by_cases h2 :
        (suites.any fun s => (r.visitSuite s s.environment).1.is_failure) <;>
      simp [Runner.dropDecision, hflag, h1, h2]
  · intro h
    simp [Runner.dropDecision, h]
  · intro st code h
    by_cases hcond : r.configuration.exit_on_failure && st.should_exit
    · simp [Runner.dropDecision, hcond] at h
      omega
    · simp [Runner.dropDecision, hcond] at h

/-- C6 witness: with exit_on_failure not configured, even a failing run
leads to no process exit at teardown. -/
theorem spec_C6_witness :
    Runner.dropDecision rNoExit
      (Runner.runAll rNoExit [suiteFail] Runner.newState) = none :=
  (spec_C6_exit_decision rNoExit [suiteFail]).2.1 rfl

/-- C7 counterexample: the claim states that the top-level run operation
yields success carrying no value when the report is non-failing; but
Runner::run returns the full SuiteReport unconditionally, so two
non-failing runs yield different values (each carrying its own report)
rather than one and the same empty success value. -/
theorem spec_C7_counterexample :
    (rNoExit.run suitePassA Runner.newState).1.is_failure = false ∧
    (rNoExit.run suitePassB Runner.newState).1.is_failure = false ∧
    (rNoExit.run suitePassA Runner.newState).1 ≠
      (rNoExit.run suitePassB Runner.newState).1 := by
  have hA : (rNoExit.run suitePassA Runner.newState).1 =
      SuiteReport.mk hdrSuiteA (ContextReport.mk []) := by
    rw [run_eq, visitSuite_eq, visitContext_eq]
    simp [suitePassA, cEmptyNone, Context.blocks, Context.before_all,
      foldHooks, evaluate_blocks_list_nil]
  have hB : (rNoExit.run suitePassB Runner.newState).1 =
      SuiteReport.mk hdrSuiteB (ContextReport.mk []) := by
    rw [run_eq, visitSuite_eq, visitContext_eq]
    simp [suitePassB, cEmptyNone, Context.blocks, Context.before_all,
      foldHooks, evaluate_blocks_list_nil]
  refine ⟨?_, ?_, ?_⟩
  · rw [hA]
    simp [SuiteReport.is_failure, ContextReport.is_failure,
      BlockReport.any_failure]
  · rw [hB]
    simp [SuiteReport.is_failure, ContextReport.is_failure,
      BlockReport.any_failure]
  · rw [hA, hB]
    intro hcontra
    have hhd := congrArg SuiteReport.header hcontra
    simp [hdrSuiteA, hdrSuiteB] at hhd

/-- C7 amended: the top-level run operation returns the full SuiteReport
itself in every case, so the report is available for inspection whether or
not it is failing; success is read off the returned report by the failure
predicate, and the should_exit flag is updated from it. -/
theorem spec_C7_run_returns_report {T : Type} (r : Runner) (s : Suite T)
    (st : RunnerState) :
    (r.run s st).1 = (r.visitSuite s s.environment).1 ∧
    (r.run s st).2.1 =
      RunnerState.mk (st.should_exit || (r.run s st).1.is_failure) := by
  rw [run_eq]
  exact ⟨rfl, rfl⟩

/-- C8: the environment is never shared mutably across execution branches.
In the pure embedding cloning is value duplication, and the conjuncts state
the observable consequences: evaluating a list of siblings splits into
independent evaluations all started from the same environment value (no
sibling sees the mutations of another); visiting a child block returns the
environment of the caller unchanged (a nested context operates on its own
duplicate, so its mutations never reach the parent); and the two
scheduling policies produce identical results, as does the whole suite
visitation when only the parallel flag varies. -/
theorem spec_C8_environment_isolation {T : Type} (r : Runner)
    (c : Context T) (xs ys : List (Block T)) (b : Block T) (env : T) :
    (Runner.evaluate_blocks_list r c (xs ++ ys) env =
      ((Runner.evaluate_blocks_list r c xs env).1 ++
          (Runner.evaluate_blocks_list r c ys env).1,
        (Runner.evaluate_blocks_list r c xs env).2 ++
          (Runner.evaluate_blocks_list r c ys env).2)) ∧
    ((Runner.visitBlock r b env).2.1 = env) ∧
    (Runner.evaluate_blocks_parallel r c env =
      Runner.evaluate_blocks_serial r c env) ∧
    (∀ (p1 p2 eo : Bool) (n : Nat) (s : Suite T) (e : T),
      Runner.visitSuite ⟨⟨p1, eo⟩, n⟩ s e =
        Runner.visitSuite ⟨⟨p2, eo⟩, n⟩ s e) :=
  ⟨evaluate_blocks_list_append r c xs ys env, visitBlock_env r b env,
    parallel_eq_serial r c env,
    fun p1 p2 eo n s e => visitSuite_policy p1 p2 eo n s e⟩

/-- C9 counterexample: the claim promises exactly one enter and exit
notification pair per visited node per registered observer, but a visited
context without a header (the root context) produces no notification at
all: with one registered observer, the whole trace of visiting an empty
headerless context is empty. -/
theorem spec_C9_counterexample :
    rSerialOne.observerCount = 1 ∧ cEmptyNone.header = none ∧
    (Runner.visitContext rSerialOne cEmptyNone (0 : Nat)).2.2 = [] := by
  refine ⟨rfl, rfl, ?_⟩
  rw [visitContext_eq]
  simp [cEmptyNone, ctxEnterEvents, ctxExitEvents, Context.header,
    Context.blocks, Context.before_all, Context.after_all, foldHooks,
    hookEvents, evaluate_blocks_list_nil]

/-- C9 amended: for every visited example and suite, and for every visited
context that has a header, the enter notifications precede the body
evaluation, which precedes the exit notifications carrying the produced
report, with exactly one enter and exit notification per registered
observer; headerless contexts (the root) produce no context notification.
Within one broadcast, observers are notified in registration order: the
broadcast is exactly the list of notifications indexed over the observer
list in registration order, containing each observer exactly once. -/
theorem spec_C9_observer_bracketing {T : Type} (r : Runner) (ex : Example T)
    (c : Context T) (s : Suite T) (env : T) (h : ContextHeader)
    (ev : NodeEvent) :
    (r.visitExample ex env =
      (ex.function env,
        r.broadcast (.enter_example ex.header) ++
          r.broadcast (.exit_example ex.header (ex.function env)))) ∧
    (c.header = some h →
      (Runner.visitContext r c env).2.2 =
        r.broadcast (.enter_context h) ++
          (hookEvents .before_all c.before_all ++
            (Runner.evaluate_blocks_list r c c.blocks
              (foldHooks c.before_all env)).2 ++
            hookEvents .after_all c.after_all) ++
          r.broadcast (.exit_context h
            (ContextReport.mk
              (Runner.evaluate_blocks_list r c c.blocks
                (foldHooks c.before_all env)).1))) ∧
    ((r.visitSuite s env).2.2 =
      r.broadcast (.enter_suite s.header) ++
        (r.visitContext s.context env).2.2 ++
        r.broadcast (.exit_suite s.header
          (SuiteReport.mk s.header (r.visitContext s.context env).1))) ∧
    (r.broadcast ev =
      (List.range r.observerCount).map fun i => Event.notify i ev) ∧
    ((r.broadcast ev).length = r.observerCount) ∧
    (∀ i, Event.notify i ev ∈ r.broadcast ev ↔ i < r.observerCount) ∧
    (r.broadcast ev).Nodup := by
  have hinj : Function.Injective (fun i => Event.notify i ev) := by
    intro a b hab
    simpa using hab
  refine ⟨visitExample_eq r ex env, ?_, ?_, rfl, by simp [Runner.broadcast],
    ?_, ?_⟩
  · intro hh
    rw [visitContext_eq]
    simp [ctxEnterEvents, ctxExitEvents, hh, List.append_assoc]
  · rw [visitSuite_eq]
  · intro i
    simp [Runner.broadcast]
  · exact (List.nodup_range r.observerCount).map hinj

/-- C9 witness: the bracketing equation instantiated at a concrete
headered context. -/
theorem spec_C9_witness :
    (Runner.visitContext rSerialOne cEmptySome (0 : Nat)).2.2 =
      rSerialOne.broadcast (.enter_context hdrCtx) ++
        (hookEvents .before_all cEmptySome.before_all ++
          (Runner.evaluate_blocks_list rSerialOne cEmptySome
            cEmptySome.blocks (foldHooks cEmptySome.before_all 0)).2 ++
          hookEvents .after_all cEmptySome.after_all) ++
        rSerialOne.broadcast (.exit_context hdrCtx
          (ContextReport.mk
            (Runner.evaluate_blocks_list rSerialOne cEmptySome
              cEmptySome.blocks (foldHooks cEmptySome.before_all 0)).1)) :=
  (spec_C9_observer_bracketing rSerialOne ⟨hdrEx, fun _ => .Success⟩
    cEmptySome suitePassA 0 hdrCtx (.enter_context hdrCtx)).2.1 rfl

/-- C10: the should_exit flag is monotone across runs: each run ORs the
failure status of its report into the flag, no operation clears it, and
after any sequence of runs the flag is the OR of the initial flag and the
failure statuses of all reports produced. -/
theorem spec_C10_should_exit_monotone {T : Type} (r : Runner)
    (st : RunnerState) (suite : Suite T) (suites : List (Suite T)) :
    ((r.run suite st).2.1.should_exit =
      (st.should_exit || (r.run suite st).1.is_failure)) ∧
    (st.should_exit = true →
      (Runner.runAll r suites st).should_exit = true) ∧
    ((Runner.runAll r suites st).should_exit =
      (st.should_exit ||
        suites.any fun s => (r.visitSuite s s.environment).1.is_failure)) := by
  obtain ⟨b⟩ := st
  refine ⟨?_, ?_, ?_⟩
  · rw [run_eq]
  · intro hb
    rw [runAll_should_exit r suites b]
    simp at hb
    simp [hb]
  · exact runAll_should_exit r suites b

/-- C10 witness: a flag already set stays set across a fully successful
run. -/
theorem spec_C10_witness :
    (Runner.runAll rNoExit [suitePassA] (⟨true⟩ : RunnerState)).should_exit =
      true :=
  (spec_C10_should_exit_monotone rNoExit ⟨true⟩ suitePassA [suitePassA]).2.1
    rfl

end Rspec
